import Mathlib

/-!
Verification of the word-guessing-game backend core.

The definitions below are a shallow embedding of the Python sources of the
repository (`api/serializers.py`, `api/puzzles/engines.py`,
`api/puzzles/hints.py`, `api/puzzles/registry.py`, `api/views.py`,
`api/models.py`). Strings are modelled as `List Char`, machine integers as
`Nat`/`Int`, timestamps as whole seconds (`Nat`), database rows as Lean
structures, and Python exceptions as `Except` error values.
-/

namespace WordGame

/-- Per-letter feedback classification, the `LetterFeedback` literal type of
`serializers.py` / `engines.py`. -/
inductive Feedback where
  | correct
  | present
  | absent
deriving DecidableEq, Repr

/-- First pass of `compute_letter_feedback` (serializers.py lines 39-44,
engines.py lines 38-43): position `i` is marked `correct` when
`guess[i] == target[i]`, otherwise it keeps the initial `absent` mark.
The Python loop runs over indices `0..n-1` of the target with the guess of
the same length; the zip realises the same pairing. -/
def mark1 (target guess : List Char) : List Feedback :=
  (target.zip guess).map (fun p => if p.2 = p.1 then Feedback.correct else Feedback.absent)

/-- The `remaining_counts` dictionary built during the first pass: for each
character `c`, the number of positions `i` with `g[i] != t[i]` and `t[i] = c`. -/
def counts1 : List Char → List Char → Char → Nat
  | t0 :: t, g0 :: g, c => (if ¬ g0 = t0 ∧ t0 = c then 1 else 0) + counts1 t g c
  | _, _, _ => 0

/-- Second pass of `compute_letter_feedback` (serializers.py lines 47-55,
engines.py lines 45-53), threading the `remaining_counts` state. Each list
entry carries the pass-1 mark `result[i]` together with the guess character
`g[i]` consulted by the loop body; the output keeps the characters so that
positions stay associated with their guess letter. -/
def pass2 : List (Feedback × Char) → (Char → Nat) → List (Feedback × Char)
  | [], _ => []
  | (f, ch) :: rest, counts =>
    if f = Feedback.correct then
      (Feedback.correct, ch) :: pass2 rest counts
    else if counts ch > 0 then
      (Feedback.present, ch) :: pass2 rest (fun c => if c = ch then counts c - 1 else counts c)
    else
      (Feedback.absent, ch) :: pass2 rest counts

/-- The two-pass Wordle-style feedback computation `compute_letter_feedback`
of `serializers.py` (identical to `_compute_letter_feedback` of
`engines.py`). All callers pass equal-length strings. -/
def compute_letter_feedback (target guess : List Char) : List Feedback :=
  (pass2 ((mark1 target guess).zip guess) (counts1 target guess)).map Prod.fst

/-- Compact storage encoding of `serializers.feedback_to_compact`:
`correct -> g`, `present -> y`, `absent -> b`. -/
def feedback_to_compact (feedback : List Feedback) : List Char :=
  feedback.map (fun f =>
    match f with
    | Feedback.correct => 'g'
    | Feedback.present => 'y'
    | Feedback.absent => 'b')

/-- Expansion of the compact encoding used when reading guess history
(`views.get_session_detail`): `mapping.get(ch, "absent")` with
`g -> correct`, `y -> present`, `b -> absent`, anything else `absent`. -/
def expand_compact (s : List Char) : List Feedback :=
  s.map (fun ch =>
    if ch = 'g' then Feedback.correct
    else if ch = 'y' then Feedback.present
    else Feedback.absent)

/-- Python `str.strip()`: remove leading and trailing whitespace. -/
def strip (s : List Char) : List Char :=
  ((s.dropWhile Char.isWhitespace).reverse.dropWhile Char.isWhitespace).reverse

/-- Normalisation used by both engines: `value.strip().lower()`. -/
def normalize (s : List Char) : List Char :=
  (strip s).map Char.toLower

/-- Result dictionary returned by `Engine.evaluate`: feedback list,
correctness flag, and the engine tag stored under `metadata["engine"]`. -/
structure EvalResult where
  feedback : List Feedback
  is_correct : Bool
  engine : List Char
deriving DecidableEq, Repr

/-- The `ValueError` raised by both engines on a length mismatch. -/
inductive EngineError where
  | lengthMismatch
deriving DecidableEq, Repr

/-- `ClassicEngine.evaluate` of `engines.py`: normalise both strings, fail
when the normalised lengths differ, otherwise return the two-pass feedback
with `is_correct = (target_n == guess_n)`. -/
def classic_evaluate (target guess : List Char) : Except EngineError EvalResult :=
  let target_n := normalize target
  let guess_n := normalize guess
  if ¬ target_n.length = guess_n.length then
    Except.error EngineError.lengthMismatch
  else
    Except.ok
      { feedback := compute_letter_feedback target_n guess_n
        is_correct := decide (target_n = guess_n)
        engine := "classic".toList }

/-- Number of occurrences of `c` in a list of characters, the multiset view
used by Python's `collections.Counter`. -/
def charCount (c : Char) : List Char → Nat
  | [] => 0
  | a :: l => (if a = c then 1 else 0) + charCount c l

/-- Python `Counter(target_n) == Counter(guess_n)`: the two dictionaries hold
exactly the same positive counts, i.e. every character occurring in either
string occurs equally often in both. -/
def counterEq (a b : List Char) : Bool :=
  a.all (fun c => charCount c a = charCount c b) && b.all (fun c => charCount c b = charCount c a)

/-- `AnagramEngine.evaluate` of `engines.py`: same normalisation, length
check and positional feedback as the classic engine, but `is_correct` is
letter-multiset equality of the normalised strings. -/
def anagram_evaluate (target guess : List Char) : Except EngineError EvalResult :=
  let target_n := normalize target
  let guess_n := normalize guess
  if ¬ target_n.length = guess_n.length then
    Except.error EngineError.lengthMismatch
  else
    Except.ok
      { feedback := compute_letter_feedback target_n guess_n
        is_correct := counterEq target_n guess_n
        engine := "anagram".toList }

/-- Puzzle-engine identifiers held by `EngineRegistry._registry` in
`registry.py`: the built-in map has exactly the keys `classic` and
`anagram`. -/
inductive EngineKind where
  | classic
  | anagram
deriving DecidableEq, Repr

/-- The `KeyError` raised by `EngineRegistry.get` for unknown keys. -/
inductive RegistryError where
  | unknownPuzzleType
deriving DecidableEq, Repr

/-- `EngineRegistry.get` / `get_engine` of `registry.py`: trim and lowercase
the key (`(puzzle_type or "").strip().lower()`), then look it up in the
built-in registry. -/
def registry_get (puzzle_type : List Char) : Except RegistryError EngineKind :=
  let key := (strip puzzle_type).map Char.toLower
  if key = "classic".toList then Except.ok EngineKind.classic
  else if key = "anagram".toList then Except.ok EngineKind.anagram
  else Except.error RegistryError.unknownPuzzleType

/-- Dispatch of `engine.evaluate` once the registry has resolved the engine
class (views.py lines 260-263). -/
def engine_evaluate (kind : EngineKind) (target guess : List Char) :
    Except EngineError EvalResult :=
  match kind with
  | EngineKind.classic => classic_evaluate target guess
  | EngineKind.anagram => anagram_evaluate target guess

/-- A dictionary `Word` row (`models.py`). The `length` column is always
derived as `len(text)` by `Word.save`, so it is a derived function here. -/
structure Word where
  text : List Char
  is_active : Bool
deriving DecidableEq, Repr

/-- Derived `length` column of a `Word` row. -/
def Word.length (w : Word) : Nat := w.text.length

/-- Gameplay mode choices of `GameSession.mode`. -/
inductive Mode where
  | classic
  | timed
  | daily
  | endless
deriving DecidableEq, Repr

/-- One persisted `Guess` row (`models.py`). -/
structure GuessRec where
  guess_word : List Char
  result : List Char
  attempt_number : Nat
  is_correct : Bool
deriving DecidableEq, Repr

/-- A `GameSession` row (`models.py`) together with its `guesses` child
collection, which the views read through `session.guesses`. Timestamps are
whole seconds. -/
structure GameSession where
  target_word : Word
  max_attempts : Nat
  is_completed : Bool
  is_won : Bool
  started_at : Nat
  ended_at : Option Nat
  mode : Mode
  puzzle_type : List Char
  hints_used : Nat
  difficulty : Nat
  time_limit_secs : Option Nat
  total_time_secs : Option Nat
  guesses : List GuessRec
deriving DecidableEq, Repr

/-- `GameSession.mark_completed` (models.py lines 112-117): one atomic update
setting `is_completed`, `is_won` and `ended_at = now`. -/
def mark_completed (s : GameSession) (won : Bool) (now : Nat) : GameSession :=
  { s with is_completed := true, is_won := won, ended_at := some now }

/-- `views._attempts_used`: the count of recorded guesses. -/
def attempts_used (s : GameSession) : Nat := s.guesses.length

/-- Public status string of `views._session_status`. -/
inductive SessionStatus where
  | IN_PROGRESS
  | WON
  | LOST
deriving DecidableEq, Repr

/-- `views._session_status`: map the DB flags to the public status. -/
def session_status (s : GameSession) : SessionStatus :=
  if s.is_completed then
    (if s.is_won then SessionStatus.WON else SessionStatus.LOST)
  else SessionStatus.IN_PROGRESS

/-- `views._compute_base_score`. Python integers are unbounded, so the
arithmetic is over `Int`. -/
def compute_base_score (s : GameSession) : Int :=
  if s.is_completed then
    (if s.is_won then max ((s.max_attempts : Int) - (attempts_used s : Int) + 1) 1 else 0)
  else
    max ((s.max_attempts : Int) - (attempts_used s : Int)) 0

/-- `views._compute_time_bonus`: 1 point per full 10 seconds remaining, only
in timed mode with both time fields set. -/
def compute_time_bonus (s : GameSession) : Int :=
  if ¬ s.mode = Mode.timed then 0
  else
    match s.time_limit_secs, s.total_time_secs with
    | some tl, some tt => (max ((tl : Int) - (tt : Int)) 0) / 10
    | _, _ => 0

/-- `views._compute_hint_penalty`: 1 point penalty per hint. -/
def compute_hint_penalty (s : GameSession) : Int :=
  (s.hints_used : Int) * 1

/-- `views._compute_score_breakdown`: `(score, base, hint_penalty,
time_bonus)` with `score = max(base + time_bonus - hint_penalty, 0)`. -/
def compute_score_breakdown (s : GameSession) : Int × Int × Int × Int :=
  let base := compute_base_score s
  let time_bonus := compute_time_bonus s
  let hint_penalty := compute_hint_penalty s
  (max (base + time_bonus - hint_penalty) 0, base, hint_penalty, time_bonus)

/-- Outcome of a `submit_guess` request (views.py lines 246-296): the HTTP
409 conflict (attempts exhausted), the HTTP 400 engine `ValueError`, the
uncaught registry `KeyError`, or success carrying the updated session,
`attempt_number`, feedback and correctness flag. -/
inductive SubmitOutcome where
  | conflict (s : GameSession)
  | badRequest (s : GameSession)
  | registryError (s : GameSession)
  | ok (s : GameSession) (attempt_number : Nat) (feedback : List Feedback) (is_correct : Bool)
deriving DecidableEq, Repr

/-- The `Guess.objects.create(...)` step of the `submit_guess` transaction
(views.py lines 273-280): append a new guess row with
`attempt_number = attempts_used + 1`, the compact feedback and the
correctness flag. -/
def append_guess (s : GameSession) (guess_text : List Char) (r : EvalResult) : GameSession :=
  { s with guesses := s.guesses ++
      [{ guess_word := guess_text
         result := feedback_to_compact r.feedback
         attempt_number := attempts_used s + 1
         is_correct := r.is_correct }] }

/-- The timed-mode elapsed-time write of `views.submit_guess` (lines 285-287
and 292-293): when mode is timed and `total_time_secs` is unset, set it to
`int((now - started_at).total_seconds())`. -/
def set_total_time (s : GameSession) (now : Nat) : GameSession :=
  if s.mode = Mode.timed ∧ s.total_time_secs = none then
    { s with total_time_secs := some (now - s.started_at) }
  else s

/-- Body of `views.submit_guess` after request validation (views.py lines
246-296). `now` is the wall clock read by `timezone.now()`; the elapsed time
written in timed mode is the integer-truncated `now - started_at` (sessions
never start in the future, so `Nat` subtraction is the Python value). -/
def submit_guess (s : GameSession) (guess_text : List Char) (now : Nat) : SubmitOutcome :=
  if attempts_used s ≥ s.max_attempts then
    SubmitOutcome.conflict (if s.is_completed then s else mark_completed s false now)
  else
    match registry_get (if s.puzzle_type = [] then "classic".toList else s.puzzle_type) with
    | Except.error _ => SubmitOutcome.registryError s
    | Except.ok kind =>
      match engine_evaluate kind s.target_word.text guess_text with
      | Except.error _ => SubmitOutcome.badRequest s
      | Except.ok r =>
        if r.is_correct then
          SubmitOutcome.ok (mark_completed (set_total_time (append_guess s guess_text r) now) true now)
            (attempts_used s + 1) r.feedback r.is_correct
        else if attempts_used s + 1 ≥ s.max_attempts then
          SubmitOutcome.ok (mark_completed (set_total_time (append_guess s guess_text r) now) false now)
            (attempts_used s + 1) r.feedback r.is_correct
        else
          SubmitOutcome.ok (append_guess s guess_text r)
            (attempts_used s + 1) r.feedback r.is_correct

/-- Hint cap `MAX_HINTS_PER_SESSION` of `hints.py`. -/
def MAX_HINTS_PER_SESSION : Nat := 2

/-- The `ValueError`s raised by the hint subsystem, plus the `IndexError`
Python would raise on an out-of-range reveal index. -/
inductive HintError where
  | sessionAlreadyCompleted
  | hintQuotaExceeded
  | indexError
deriving DecidableEq, Repr

/-- `hints._ensure_can_use_hint`: completed sessions are rejected first, then
the quota is checked. -/
def ensure_can_use_hint (s : GameSession) : Except HintError Unit :=
  if s.is_completed then Except.error HintError.sessionAlreadyCompleted
  else if s.hints_used ≥ MAX_HINTS_PER_SESSION then Except.error HintError.hintQuotaExceeded
  else Except.ok ()

/-- `hints._increment_hints`: persist `hints_used = min(hints_used + 1,
MAX_HINTS_PER_SESSION)`. -/
def increment_hints (s : GameSession) : GameSession :=
  { s with hints_used := min (s.hints_used + 1) MAX_HINTS_PER_SESSION }

/-- Payload `data` of a hint response: revealed index, its letter, and the
remaining quota `max(0, MAX_HINTS_PER_SESSION - hints_used)`. -/
structure HintPayload where
  index : Nat
  letter : Char
  remaining : Nat
deriving DecidableEq, Repr

/-- `hints.reveal_position`. The index drawn by `random.randrange(0,
target_word.length)` is passed in explicitly as the oracle `idx`; the letter
is `target_word.text[idx]`. Returns the mutated session with the payload. -/
def reveal_position (s : GameSession) (idx : Nat) :
    Except HintError (GameSession × HintPayload) :=
  match ensure_can_use_hint s with
  | Except.error e => Except.error e
  | Except.ok _ =>
    if h : idx < s.target_word.text.length then
      let letter := s.target_word.text.get ⟨idx, h⟩
      let s1 := increment_hints s
      Except.ok (s1, { index := idx, letter := letter,
                       remaining := MAX_HINTS_PER_SESSION - s1.hints_used })
    else Except.error HintError.indexError

/-- `hints.reveal_first_letter`: always index 0 and
`target_word.text[0]`. -/
def reveal_first_letter (s : GameSession) :
    Except HintError (GameSession × HintPayload) :=
  match ensure_can_use_hint s with
  | Except.error e => Except.error e
  | Except.ok _ =>
    if h : 0 < s.target_word.text.length then
      let letter := s.target_word.text.get ⟨0, h⟩
      let s1 := increment_hints s
      Except.ok (s1, { index := 0, letter := letter,
                       remaining := MAX_HINTS_PER_SESSION - s1.hints_used })
    else Except.error HintError.indexError

/-- Difficulty adjustment of `views.start_game` (line 185):
`max(1, min(10, max_attempts - max(0, difficulty - 1) // 3))`, over Python
integers. Both operands of the floor division are non-negative, so `Int`
truncating division agrees with Python's `//`. -/
def adjusted_max_attempts (max_attempts difficulty : Int) : Int :=
  max 1 (min 10 (max_attempts - (max 0 (difficulty - 1)) / 3))

/-- The `GameSession.objects.create(...)` call of `views.start_game` (lines
187-195) combined with the model defaults of `models.py`: a fresh session has
no guesses, no hints, is not completed or won, and carries `time_limit_secs`
only in timed mode. -/
def init_session (w : Word) (adj_max_attempts : Nat) (mode : Mode)
    (puzzle_type : List Char) (difficulty : Nat) (time_limit_secs : Option Nat)
    (t : Nat) : GameSession :=
  { target_word := w
    max_attempts := adj_max_attempts
    is_completed := false
    is_won := false
    started_at := t
    ended_at := none
    mode := mode
    puzzle_type := puzzle_type
    hints_used := 0
    difficulty := difficulty
    time_limit_secs := if mode = Mode.timed then time_limit_secs else none
    total_time_secs := none
    guesses := [] }

/-- Sessions reachable through the public operations. `start_game` creates a
fresh session; `submit_guess` and the two hint operations are only reached
with a non-completed session because `GuessRequestSerializer.validate` and
`HintRequestSerializer.validate` reject completed sessions; each step keeps
whatever state the operation persisted. -/
inductive Reachable : GameSession → Prop where
  | start (w : Word) (ma : Nat) (mode : Mode) (pt : List Char) (diff : Nat)
      (tl : Option Nat) (t : Nat) :
      Reachable (init_session w ma mode pt diff tl t)
  | guessConflict (s : GameSession) (g : List Char) (now : Nat) (s' : GameSession) :
      Reachable s → s.is_completed = false →
      submit_guess s g now = SubmitOutcome.conflict s' → Reachable s'
  | guessOk (s : GameSession) (g : List Char) (now : Nat) (s' : GameSession)
      (an : Nat) (fb : List Feedback) (b : Bool) :
      Reachable s → s.is_completed = false →
      submit_guess s g now = SubmitOutcome.ok s' an fb b → Reachable s'
  | hintPos (s : GameSession) (idx : Nat) (s' : GameSession) (p : HintPayload) :
      Reachable s → s.is_completed = false →
      reveal_position s idx = Except.ok (s', p) → Reachable s'
  | hintFirst (s : GameSession) (s' : GameSession) (p : HintPayload) :
      Reachable s → s.is_completed = false →
      reveal_first_letter s = Except.ok (s', p) → Reachable s'

/-- Number of positions (mark paired with the guess letter at that position)
marked `correct` and carrying guess letter `c`. -/
def cntCorrect (c : Char) : List (Feedback × Char) → Nat
  | [] => 0
  | (f, ch) :: rest => (if f = Feedback.correct ∧ ch = c then 1 else 0) + cntCorrect c rest

/-- Number of positions marked `present` and carrying guess letter `c`. -/
def cntPresent (c : Char) : List (Feedback × Char) → Nat
  | [] => 0
  | (f, ch) :: rest => (if f = Feedback.present ∧ ch = c then 1 else 0) + cntPresent c rest

/-- Number of positions marked `correct` or `present` and carrying guess
letter `c`. -/
def cntMarked (c : Char) : List (Feedback × Char) → Nat
  | [] => 0
  | (f, ch) :: rest =>
    (if (f = Feedback.correct ∨ f = Feedback.present) ∧ ch = c then 1 else 0) + cntMarked c rest

/-- Number of positions of the feedback list marked `correct` or `present`
where the guess has letter `c`. -/
def markedCount (c : Char) (feedback : List Feedback) (guess : List Char) : Nat :=
  cntMarked c (feedback.zip guess)

/-- Modelled from the spec wording of the scoring rules (spec section 4.5),
for comparison with the code-side `compute_base_score`. -/
def spec_base_score (s : GameSession) : Int :=
  if s.is_completed = true ∧ s.is_won = true then
    max ((s.max_attempts : Int) - (s.guesses.length : Int) + 1) 1
  else if s.is_completed = true ∧ s.is_won = false then 0
  else max ((s.max_attempts : Int) - (s.guesses.length : Int)) 0

/-- Modelled from the spec wording: 0 unless mode is timed with both time
fields set, else `floor(max(time_limit_secs - total_time_secs, 0) / 10)`. -/
def spec_time_bonus (s : GameSession) : Int :=
  match s.mode, s.time_limit_secs, s.total_time_secs with
  | Mode.timed, some tl, some tt => (max ((tl : Int) - (tt : Int)) 0) / 10
  | _, _, _ => 0

/-- Modelled from the spec wording: one point of penalty per hint used. -/
def spec_hint_penalty (s : GameSession) : Int := (s.hints_used : Int) * 1

/-- Modelled from the spec wording:
`finalScore = max(baseScore + timeBonus - hintPenalty, 0)`. -/
def spec_final_score (s : GameSession) : Int :=
  max (spec_base_score s + spec_time_bonus s - spec_hint_penalty s) 0

/-- The session invariant of the data-model section of the design: winning
implies completion, `ended_at` is set exactly on completion, the hint cap is
respected, and recorded guesses never exceed `max_attempts`. -/
def SessionInvariant (s : GameSession) : Prop :=
  (s.is_won = true → s.is_completed = true) ∧
  (¬ s.ended_at = none ↔ s.is_completed = true) ∧
  s.hints_used ≤ MAX_HINTS_PER_SESSION ∧
  s.guesses.length ≤ s.max_attempts

/-- C4: expanding the compact g/y/b string produced by `feedback_to_compact`
through the g/y/b-to-feedback mapping of the session-detail view yields the
original feedback sequence exactly. -/
theorem compact_feedback_roundtrip (feedback : List Feedback) :
    expand_compact (feedback_to_compact feedback) = feedback := by
  induction feedback with
  | nil => rfl
  | cons f rest ih =>
    cases f <;> simp [feedback_to_compact, expand_compact] at ih ⊢ <;> exact ih

/-- C3: the score breakdown computed by the views agrees with the specified
formulas: the base score is `max(max_attempts - attempts_used + 1, 1)` when
completed and won, `0` when completed and lost, and
`max(max_attempts - attempts_used, 0)` in progress; the final score is
`max(baseScore + timeBonus - hintPenalty, 0)` with `hintPenalty =
hints_used * 1` and the timed-mode time bonus. -/
theorem score_breakdown_formula (s : GameSession) :
    compute_score_breakdown s =
      (spec_final_score s, spec_base_score s, spec_hint_penalty s, spec_time_bonus s) := by
  have hbase : compute_base_score s = spec_base_score s := by
    unfold compute_base_score spec_base_score attempts_used
    cases hc : s.is_completed <;> cases hw : s.is_won <;> simp
  have htb : compute_time_bonus s = spec_time_bonus s := by
    unfold compute_time_bonus spec_time_bonus
    cases hm : s.mode <;> cases htl : s.time_limit_secs <;> cases htt : s.total_time_secs <;> simp
  have hhp : compute_hint_penalty s = spec_hint_penalty s := rfl
  unfold compute_score_breakdown spec_final_score
  rw [hbase, htb, hhp]

/-- C10 counterexample: for requested `max_attempts = 1` and `difficulty = 4`
the adjusted value equals the requested value, so difficulty 4 does not give
strictly fewer attempts than requested, refuting the claim as stated. -/
theorem adjusted_max_attempts_not_always_strict :
    adjusted_max_attempts 1 4 = 1 ∧ ¬ adjusted_max_attempts 1 4 < 1 := by
  constructor
  · decide
  · decide

/-- C10 (amended): for validated requests (`1 ≤ m ≤ 10`, `1 ≤ d ≤ 10`) the
session's `max_attempts` is `max(1, min(10, m - (d - 1) / 3))` with floor
division, and for difficulty at least 4 and requested attempts at least 2
the session permits strictly fewer attempts than requested. -/
theorem adjusted_max_attempts_spec (m d : Int)
    (h1 : 1 ≤ m) (h2 : m ≤ 10) (h3 : 1 ≤ d) (h4 : d ≤ 10) :
    adjusted_max_attempts m d = max 1 (min 10 (m - (d - 1) / 3)) ∧
    (4 ≤ d → 2 ≤ m → adjusted_max_attempts m d < m) := by
  have hmax : max (0 : Int) (d - 1) = d - 1 := by omega
  constructor
  · unfold adjusted_max_attempts
    rw [hmax]
  · intro hd hm
    unfold adjusted_max_attempts
    rw [hmax]
    have hk1 : 1 ≤ (d - 1) / 3 := by omega
    have hk2 : (d - 1) / 3 ≤ 3 := by omega
    omega

/-- C10 witness: at the concrete validated request `m = 6`, `d = 10` the
theorem applies and yields the adjusted value 3, strictly below 6. -/
theorem adjusted_max_attempts_spec_witness :
    adjusted_max_attempts 6 10 = max 1 (min 10 (6 - (10 - 1) / 3)) ∧
    (4 ≤ (10 : Int) → 2 ≤ (6 : Int) → adjusted_max_attempts 6 10 < 6) :=
  adjusted_max_attempts_spec 6 10 (by decide) (by decide) (by decide) (by decide)

lemma pass2_length (l : List (Feedback × Char)) (counts : Char → Nat) :
    (pass2 l counts).length = l.length := by
  induction l generalizing counts with
  | nil => rfl
  | cons p rest ih =>
    obtain ⟨f, ch⟩ := p
    by_cases hf : f = Feedback.correct
    · simp [pass2, hf, ih]
    · by_cases hc : counts ch > 0
      · simp [pass2, hf, hc, ih]
      · simp [pass2, hf, hc, ih]

lemma pass2_snd (l : List (Feedback × Char)) (counts : Char → Nat) :
    (pass2 l counts).map Prod.snd = l.map Prod.snd := by
  induction l generalizing counts with
  | nil => rfl
  | cons p rest ih =>
    obtain ⟨f, ch⟩ := p
    by_cases hf : f = Feedback.correct
    · simp [pass2, hf, ih]
    · by_cases hc : counts ch > 0
      · simp [pass2, hf, hc, ih]
      · simp [pass2, hf, hc, ih]

lemma cntPresent_pass2_le (l : List (Feedback × Char)) (counts : Char → Nat) (c : Char) :
    cntPresent c (pass2 l counts) ≤ counts c := by
  induction l generalizing counts with
  | nil => simp [pass2, cntPresent]
  | cons p rest ih =>
    obtain ⟨f, ch⟩ := p
    by_cases hf : f = Feedback.correct
    · simpa [pass2, hf, cntPresent] using ih counts
    · by_cases hc : counts ch > 0
      · by_cases hch : ch = c
        · subst hch
          have key := ih (fun x => if x = ch then counts x - 1 else counts x)
          simp at key
          simp [pass2, hf, hc, cntPresent]
          omega
        · have key := ih (fun x => if x = ch then counts x - 1 else counts x)
          have hcc : ¬ c = ch := fun hcc => hch hcc.symm
          simp only [if_neg hcc] at key
          simpa [pass2, hf, hc, cntPresent, hch] using key
      · simpa [pass2, hf, hc, cntPresent] using ih counts

lemma cntCorrect_pass2 (l : List (Feedback × Char)) (counts : Char → Nat) (c : Char) :
    cntCorrect c (pass2 l counts) = cntCorrect c l := by
  induction l generalizing counts with
  | nil => rfl
  | cons p rest ih =>
    obtain ⟨f, ch⟩ := p
    by_cases hf : f = Feedback.correct
    · simp [pass2, hf, cntCorrect, ih]
    · by_cases hc : counts ch > 0
      · simp [pass2, hf, hc, cntCorrect, ih]
      · simp [pass2, hf, hc, cntCorrect, ih]

lemma cntMarked_split (c : Char) (l : List (Feedback × Char)) :
    cntMarked c l = cntCorrect c l + cntPresent c l := by
  induction l with
  | nil => rfl
  | cons p rest ih =>
    obtain ⟨f, ch⟩ := p
    cases f <;> by_cases hch : ch = c <;>
      simp [cntMarked, cntCorrect, cntPresent, hch, ih] <;> omega

lemma counts1_add_cntCorrect (t : List Char) : ∀ g : List Char,
    t.length = g.length → ∀ c : Char,
    cntCorrect c ((mark1 t g).zip g) + counts1 t g c = charCount c t := by
  induction t with
  | nil =>
    intro g h c
    cases g with
    | nil => rfl
    | cons g0 g' => simp at h
  | cons t0 t' ih =>
    intro g h c
    cases g with
    | nil => simp at h
    | cons g0 g' =>
      have h' : t'.length = g'.length := by simpa using h
      have key := ih g' h' c
      have hz : (mark1 (t0 :: t') (g0 :: g')).zip (g0 :: g') =
          ((if g0 = t0 then Feedback.correct else Feedback.absent), g0) ::
            (mark1 t' g').zip g' := rfl
      rw [hz]
      by_cases hgt : g0 = t0
      · by_cases ht0 : t0 = c
        · have hg0 : g0 = c := by rw [hgt, ht0]
          simp [cntCorrect, counts1, charCount, hgt, ht0, hg0]
          omega
        · have hg0 : ¬ g0 = c := by rw [hgt]; exact ht0
          simp [cntCorrect, counts1, charCount, hgt, ht0, hg0]
          omega
      · by_cases ht0 : t0 = c
        · have hne : ¬ g0 = c := fun hh => hgt (hh.trans ht0.symm)
          simp [cntCorrect, counts1, charCount, hgt, ht0, hne]
          omega
        · simp [cntCorrect, counts1, charCount, hgt, ht0]
          omega

lemma charCount_eq_count (c : Char) (l : List Char) : charCount c l = l.count c := by
  induction l with
  | nil => rfl
  | cons a l ih =>
    by_cases h : a = c <;> simp [charCount, List.count_cons, h, ih, Nat.add_comm]

lemma zip_fst_snd (l : List (Feedback × Char)) :
    (l.map Prod.fst).zip (l.map Prod.snd) = l := by
  have h := List.zip_unzip l
  rwa [List.unzip_eq_map] at h

/-- C1: for equal-length target and guess the two-pass feedback has the
length of the target, and for every letter `c` the number of positions
marked `correct` or `present` where the guess has letter `c` never exceeds
the number of occurrences of `c` in the target. -/
theorem compute_letter_feedback_length_count (t g : List Char) (h : t.length = g.length) :
    (compute_letter_feedback t g).length = t.length ∧
    ∀ c : Char, markedCount c (compute_letter_feedback t g) g ≤ t.count c := by
  have hm1 : (mark1 t g).length = t.length := by
    simp [mark1, h]
  have hzip_snd : ((mark1 t g).zip g).map Prod.snd = g :=
    List.map_snd_zip _ _ (by rw [hm1, h])
  have hlen : (compute_letter_feedback t g).length = t.length := by
    unfold compute_letter_feedback
    rw [List.length_map, pass2_length, List.length_zip, hm1, h]
    simp
  refine ⟨hlen, ?_⟩
  intro c
  have hsnd : (pass2 ((mark1 t g).zip g) (counts1 t g)).map Prod.snd = g := by
    rw [pass2_snd, hzip_snd]
  have hzip_eq :
      (compute_letter_feedback t g).zip g = pass2 ((mark1 t g).zip g) (counts1 t g) := by
    have h2 := zip_fst_snd (pass2 ((mark1 t g).zip g) (counts1 t g))
    rw [hsnd] at h2
    exact h2
  have hsplit := cntMarked_split c (pass2 ((mark1 t g).zip g) (counts1 t g))
  have hcor := cntCorrect_pass2 ((mark1 t g).zip g) (counts1 t g) c
  have hpre := cntPresent_pass2_le ((mark1 t g).zip g) (counts1 t g) c
  have hbal := counts1_add_cntCorrect t g h c
  have hcnt := charCount_eq_count c t
  unfold markedCount
  rw [hzip_eq]
  omega

/-- C1 witness: the bound instantiated at the duplicate-letter pair
`target = "allee"`, `guess = "lemma"` and the letter `e`. -/
theorem compute_letter_feedback_length_count_witness :
    (compute_letter_feedback "allee".toList "lemma".toList).length = "allee".toList.length ∧
    markedCount 'e' (compute_letter_feedback "allee".toList "lemma".toList) "lemma".toList ≤
      "allee".toList.count 'e' :=
  ⟨(compute_letter_feedback_length_count "allee".toList "lemma".toList rfl).1,
   (compute_letter_feedback_length_count "allee".toList "lemma".toList rfl).2 'e'⟩

lemma mark1_self (x : List Char) : mark1 x x = List.replicate x.length Feedback.correct := by
  induction x with
  | nil => rfl
  | cons a l ih =>
    have hz : mark1 (a :: l) (a :: l) =
        (if a = a then Feedback.correct else Feedback.absent) :: mark1 l l := rfl
    simp [hz, ih, List.replicate_succ]

lemma pass2_all_correct (l : List (Feedback × Char)) (counts : Char → Nat)
    (h : ∀ p ∈ l, p.1 = Feedback.correct) : pass2 l counts = l := by
  induction l generalizing counts with
  | nil => rfl
  | cons p rest ih =>
    obtain ⟨f, ch⟩ := p
    have hf : f = Feedback.correct := h (f, ch) (by simp)
    subst hf
    simp [pass2]
    exact ih counts (fun q hq => h q (by simp [hq]))

lemma compute_letter_feedback_self (x : List Char) :
    compute_letter_feedback x x = List.replicate x.length Feedback.correct := by
  unfold compute_letter_feedback
  rw [mark1_self, pass2_all_correct]
  · apply List.map_fst_zip
    simp
  · intro p hp
    exact List.eq_of_mem_replicate (List.of_mem_zip hp).1

/-- C5: the classic engine fails with a length mismatch exactly when the
normalised lengths differ; on success `is_correct` holds iff the normalised
strings are equal and the feedback is the two-pass feedback of the
normalised strings; evaluating a target against itself yields all-`correct`
feedback and `is_correct = true`. -/
theorem classic_evaluate_spec (target guess : List Char) :
    (classic_evaluate target guess = Except.error EngineError.lengthMismatch ↔
      ¬ (normalize target).length = (normalize guess).length) ∧
    (∀ r : EvalResult, classic_evaluate target guess = Except.ok r →
      (r.is_correct = true ↔ normalize target = normalize guess) ∧
      r.feedback = compute_letter_feedback (normalize target) (normalize guess)) ∧
    classic_evaluate target target =
      Except.ok { feedback := List.replicate (normalize target).length Feedback.correct,
                  is_correct := true,
                  engine := "classic".toList } := by
  refine ⟨?_, ?_, ?_⟩
  · unfold classic_evaluate
    by_cases h : (normalize target).length = (normalize guess).length <;> simp [h]
  · intro r hr
    unfold classic_evaluate at hr
    by_cases h : (normalize target).length = (normalize guess).length
    · simp only [h, not_true_eq_false, if_false, ite_false] at hr
      simp at hr
      subst hr
      constructor
      · simp
      · rfl
    · simp [h] at hr
  · unfold classic_evaluate
    rw [if_neg (not_not_intro rfl)]
    simp [compute_letter_feedback_self]

/-- C5 witness: at `target = "ab"`, `guess = "ba"` the normalised lengths
agree, the engine succeeds with `is_correct = false`, and the theorem's
success clause applies. -/
theorem classic_evaluate_spec_witness :
    (({ feedback := [Feedback.present, Feedback.present], is_correct := false,
        engine := "classic".toList } : EvalResult).is_correct = true ↔
      normalize "ab".toList = normalize "ba".toList) ∧
    ({ feedback := [Feedback.present, Feedback.present], is_correct := false,
       engine := "classic".toList } : EvalResult).feedback =
      compute_letter_feedback (normalize "ab".toList) (normalize "ba".toList) :=
  (classic_evaluate_spec "ab".toList "ba".toList).2.1
    { feedback := [Feedback.present, Feedback.present], is_correct := false,
      engine := "classic".toList } rfl

lemma counterEq_iff_perm (a b : List Char) : counterEq a b = true ↔ a.Perm b := by
  constructor
  · intro h
    simp only [counterEq, Bool.and_eq_true, List.all_eq_true, decide_eq_true_eq] at h
    rw [List.perm_iff_count]
    intro c
    by_cases hca : c ∈ a
    · have hc := h.1 c hca
      rwa [charCount_eq_count, charCount_eq_count] at hc
    · by_cases hcb : c ∈ b
      · have hc := h.2 c hcb
        rw [charCount_eq_count, charCount_eq_count] at hc
        exact hc.symm
      · rw [List.count_eq_zero_of_not_mem hca, List.count_eq_zero_of_not_mem hcb]
  · intro h
    have hcnt := List.perm_iff_count.mp h
    simp only [counterEq, Bool.and_eq_true, List.all_eq_true, decide_eq_true_eq,
      charCount_eq_count]
    exact ⟨fun x _ => hcnt x, fun x _ => (hcnt x).symm⟩

/-- C6: the anagram engine fails with a length mismatch exactly when the
normalised lengths differ; on success the feedback is the same two-pass
positional feedback as the classic engine, while `is_correct` holds iff the
normalised guess is a permutation of the normalised target. -/
theorem anagram_evaluate_spec (target guess : List Char) :
    (anagram_evaluate target guess = Except.error EngineError.lengthMismatch ↔
      ¬ (normalize target).length = (normalize guess).length) ∧
    (∀ r : EvalResult, anagram_evaluate target guess = Except.ok r →
      (r.is_correct = true ↔ (normalize guess).Perm (normalize target)) ∧
      r.feedback = compute_letter_feedback (normalize target) (normalize guess)) := by
  constructor
  · unfold anagram_evaluate
    by_cases h : (normalize target).length = (normalize guess).length <;> simp [h]
  · intro r hr
    unfold anagram_evaluate at hr
    by_cases h : (normalize target).length = (normalize guess).length
    · simp only [h, not_true_eq_false, if_false, ite_false] at hr
      simp at hr
      subst hr
      refine ⟨?_, rfl⟩
      rw [counterEq_iff_perm]
      exact ⟨List.Perm.symm, List.Perm.symm⟩
    · simp [h] at hr

/-- C6 witness: at `target = "listen"`, `guess = "silent"` the engine
succeeds, `is_correct = true`, and the theorem's success clause applies. -/
theorem anagram_evaluate_spec_witness :
    (({ feedback := [Feedback.present, Feedback.correct, Feedback.present, Feedback.present,
                     Feedback.present, Feedback.present], is_correct := true,
        engine := "anagram".toList } : EvalResult).is_correct = true ↔
      (normalize "silent".toList).Perm (normalize "listen".toList)) ∧
    ({ feedback := [Feedback.present, Feedback.correct, Feedback.present, Feedback.present,
                    Feedback.present, Feedback.present], is_correct := true,
       engine := "anagram".toList } : EvalResult).feedback =
      compute_letter_feedback (normalize "listen".toList) (normalize "silent".toList) :=
  (anagram_evaluate_spec "listen".toList "silent".toList).2
    { feedback := [Feedback.present, Feedback.correct, Feedback.present, Feedback.present,
                   Feedback.present, Feedback.present], is_correct := true,
      engine := "anagram".toList } rfl

/-- C7: both hint operations fail with `SessionAlreadyCompleted` on a
completed session and with `HintQuotaExceeded` once `hints_used` reaches the
cap of 2 (the pure model returns only the error, so the stored session — and
with it `hints_used` — is unchanged); below the cap each returns the target
letter at the revealed index (0 for `reveal_first_letter`) and increments
`hints_used` by exactly one, so a fresh session supports the 0 → 1 → 2
scenario with the third call failing. -/
theorem hint_operations_spec (s : GameSession) (idx : Nat) :
    (s.is_completed = true →
      reveal_position s idx = Except.error HintError.sessionAlreadyCompleted ∧
      reveal_first_letter s = Except.error HintError.sessionAlreadyCompleted) ∧
    (s.is_completed = false → MAX_HINTS_PER_SESSION ≤ s.hints_used →
      reveal_position s idx = Except.error HintError.hintQuotaExceeded ∧
      reveal_first_letter s = Except.error HintError.hintQuotaExceeded) ∧
    (s.is_completed = false → s.hints_used < MAX_HINTS_PER_SESSION →
      (increment_hints s).hints_used = s.hints_used + 1 ∧
      (∀ h : idx < s.target_word.text.length,
        reveal_position s idx =
          Except.ok (increment_hints s,
            { index := idx, letter := s.target_word.text.get ⟨idx, h⟩,
              remaining := MAX_HINTS_PER_SESSION - (s.hints_used + 1) })) ∧
      (∀ h0 : 0 < s.target_word.text.length,
        reveal_first_letter s =
          Except.ok (increment_hints s,
            { index := 0, letter := s.target_word.text.get ⟨0, h0⟩,
              remaining := MAX_HINTS_PER_SESSION - (s.hints_used + 1) }))) := by
  refine ⟨?_, ?_, ?_⟩
  · intro hc
    constructor <;> simp [reveal_position, reveal_first_letter, ensure_can_use_hint, hc]
  · intro hc hq
    constructor <;>
      simp [reveal_position, reveal_first_letter, ensure_can_use_hint, hc, hq]
  · intro hc hq
    have hinc : (increment_hints s).hints_used = s.hints_used + 1 := by
      simp [increment_hints]
      omega
    refine ⟨hinc, ?_, ?_⟩
    · intro h
      simp [reveal_position, ensure_can_use_hint, hc, Nat.not_le.mpr hq, h, hinc]
    · intro h0
      simp [reveal_first_letter, ensure_can_use_hint, hc, Nat.not_le.mpr hq, h0, hinc]

/-- C7 witness: a fresh session on the target word "apple" with no hints
used; revealing position 1 succeeds with the letter `p` and takes
`hints_used` from 0 to 1. -/
theorem hint_operations_spec_witness :
    (increment_hints
        { target_word := { text := "apple".toList, is_active := true }
          max_attempts := 6, is_completed := false, is_won := false
          started_at := 0, ended_at := none, mode := Mode.classic
          puzzle_type := "classic".toList, hints_used := 0, difficulty := 1
          time_limit_secs := none, total_time_secs := none,
          guesses := [] }).hints_used = 0 + 1 ∧
    reveal_position
        { target_word := { text := "apple".toList, is_active := true }
          max_attempts := 6, is_completed := false, is_won := false
          started_at := 0, ended_at := none, mode := Mode.classic
          puzzle_type := "classic".toList, hints_used := 0, difficulty := 1
          time_limit_secs := none, total_time_secs := none,
          guesses := [] } 1 =
      Except.ok (increment_hints
        { target_word := { text := "apple".toList, is_active := true }
          max_attempts := 6, is_completed := false, is_won := false
          started_at := 0, ended_at := none, mode := Mode.classic
          puzzle_type := "classic".toList, hints_used := 0, difficulty := 1
          time_limit_secs := none, total_time_secs := none,
          guesses := [] },
        { index := 1, letter := 'p', remaining := MAX_HINTS_PER_SESSION - (0 + 1) }) :=
  ⟨((hint_operations_spec
      { target_word := { text := "apple".toList, is_active := true }
        max_attempts := 6, is_completed := false, is_won := false
        started_at := 0, ended_at := none, mode := Mode.classic
        puzzle_type := "classic".toList, hints_used := 0, difficulty := 1
        time_limit_secs := none, total_time_secs := none,
        guesses := [] } 1).2.2 rfl (by decide)).1,
   ((hint_operations_spec
      { target_word := { text := "apple".toList, is_active := true }
        max_attempts := 6, is_completed := false, is_won := false
        started_at := 0, ended_at := none, mode := Mode.classic
        puzzle_type := "classic".toList, hints_used := 0, difficulty := 1
        time_limit_secs := none, total_time_secs := none,
        guesses := [] } 1).2.2 rfl (by decide)).2.1 (by decide)⟩

lemma submit_guess_ok_cases (s : GameSession) (g : List Char) (now : Nat)
    (s' : GameSession) (an : Nat) (fb : List Feedback) (b : Bool)
    (hok : submit_guess s g now = SubmitOutcome.ok s' an fb b) :
    attempts_used s < s.max_attempts ∧ an = attempts_used s + 1 ∧
    ∃ r : EvalResult, b = r.is_correct ∧ fb = r.feedback ∧
      ((r.is_correct = true ∧
        s' = mark_completed (set_total_time (append_guess s g r) now) true now) ∨
       (r.is_correct = false ∧ s.max_attempts ≤ attempts_used s + 1 ∧
        s' = mark_completed (set_total_time (append_guess s g r) now) false now) ∨
       (r.is_correct = false ∧ attempts_used s + 1 < s.max_attempts ∧
        s' = append_guess s g r)) := by
  unfold submit_guess at hok
  by_cases hle : attempts_used s ≥ s.max_attempts
  · rw [if_pos hle] at hok
    exact absurd hok (by simp)
  · rw [if_neg hle] at hok
    refine ⟨by omega, ?_⟩
    split at hok
    · exact absurd hok (by simp)
    · split at hok
      · exact absurd hok (by simp)
      · rename_i r heval
        by_cases hcor : r.is_correct = true
        · rw [if_pos hcor] at hok
          simp only [SubmitOutcome.ok.injEq] at hok
          obtain ⟨hs, han, hfb, hb⟩ := hok
          exact ⟨han.symm, r, hb.symm, hfb.symm, Or.inl ⟨hcor, hs.symm⟩⟩
        · rw [if_neg hcor] at hok
          by_cases hfull : attempts_used s + 1 ≥ s.max_attempts
          · rw [if_pos hfull] at hok
            simp only [SubmitOutcome.ok.injEq] at hok
            obtain ⟨hs, han, hfb, hb⟩ := hok
            exact ⟨han.symm, r, hb.symm, hfb.symm,
              Or.inr (Or.inl ⟨by simpa using hcor, hfull, hs.symm⟩)⟩
          · rw [if_neg hfull] at hok
            simp only [SubmitOutcome.ok.injEq] at hok
            obtain ⟨hs, han, hfb, hb⟩ := hok
            exact ⟨han.symm, r, hb.symm, hfb.symm,
              Or.inr (Or.inr ⟨by simpa using hcor, by omega, hs.symm⟩)⟩

/-- C8: when the recorded attempts already reach `max_attempts`, submitting
a guess yields the 409 conflict without recording a new guess (the conflict
session keeps the guess list unchanged), and if the session was not yet
completed it is force-transitioned to LOST. -/
theorem submit_guess_exhausted_conflict (s : GameSession) (g : List Char) (now : Nat)
    (h : s.max_attempts ≤ attempts_used s) :
    submit_guess s g now =
      SubmitOutcome.conflict (if s.is_completed then s else mark_completed s false now) ∧
    (if s.is_completed then s else mark_completed s false now).guesses = s.guesses ∧
    (s.is_completed = false →
      session_status (if s.is_completed then s else mark_completed s false now) =
        SessionStatus.LOST) := by
  refine ⟨?_, ?_, ?_⟩
  · unfold submit_guess
    rw [if_pos h]
  · by_cases hc : s.is_completed <;> simp [hc, mark_completed]
  · intro hc
    simp [hc, session_status, mark_completed]

/-- C8 witness: a session with one allowed attempt and one recorded guess,
not yet marked completed, conflicts and is force-closed as LOST. -/
theorem submit_guess_exhausted_conflict_witness :
    submit_guess
        { target_word := { text := "apple".toList, is_active := true }
          max_attempts := 1, is_completed := false, is_won := false
          started_at := 0, ended_at := none, mode := Mode.classic
          puzzle_type := "classic".toList, hints_used := 0, difficulty := 1
          time_limit_secs := none, total_time_secs := none,
          guesses := [{ guess_word := "maple".toList, result := "bgggg".toList,
                        attempt_number := 1, is_correct := false }] } "apple".toList 5 =
      SubmitOutcome.conflict
        (if ({ target_word := { text := "apple".toList, is_active := true }
               max_attempts := 1, is_completed := false, is_won := false
               started_at := 0, ended_at := none, mode := Mode.classic
               puzzle_type := "classic".toList, hints_used := 0, difficulty := 1
               time_limit_secs := none, total_time_secs := none,
               guesses := [{ guess_word := "maple".toList, result := "bgggg".toList,
                             attempt_number := 1, is_correct := false }] } : GameSession).is_completed
         then { target_word := { text := "apple".toList, is_active := true }
                max_attempts := 1, is_completed := false, is_won := false
                started_at := 0, ended_at := none, mode := Mode.classic
                puzzle_type := "classic".toList, hints_used := 0, difficulty := 1
                time_limit_secs := none, total_time_secs := none,
                guesses := [{ guess_word := "maple".toList, result := "bgggg".toList,
                              attempt_number := 1, is_correct := false }] }
         else mark_completed
                { target_word := { text := "apple".toList, is_active := true }
                  max_attempts := 1, is_completed := false, is_won := false
                  started_at := 0, ended_at := none, mode := Mode.classic
                  puzzle_type := "classic".toList, hints_used := 0, difficulty := 1
                  time_limit_secs := none, total_time_secs := none,
                  guesses := [{ guess_word := "maple".toList, result := "bgggg".toList,
                                attempt_number := 1, is_correct := false }] } false 5) :=
  (submit_guess_exhausted_conflict
    { target_word := { text := "apple".toList, is_active := true }
      max_attempts := 1, is_completed := false, is_won := false
      started_at := 0, ended_at := none, mode := Mode.classic
      puzzle_type := "classic".toList, hints_used := 0, difficulty := 1
      time_limit_secs := none, total_time_secs := none,
      guesses := [{ guess_word := "maple".toList, result := "bgggg".toList,
                    attempt_number := 1, is_correct := false }] } "apple".toList 5
    (by decide)).1

/-- C2: a guess submitted to a non-completed session with spare attempts
uses `attempt_number = attempts_used + 1`; when the engine reports a correct
guess the session becomes WON, otherwise it becomes LOST exactly when the
attempt number reaches `max_attempts` and stays IN_PROGRESS below it. The
single completion update sets `ended_at = now`, `is_completed`, `is_won`
to the outcome, and in timed mode with `total_time_secs` unset writes the
truncated elapsed seconds since `started_at`. -/
theorem submit_guess_transition (s : GameSession) (g : List Char) (now : Nat)
    (s' : GameSession) (an : Nat) (fb : List Feedback) (b : Bool)
    (hns : s.is_completed = false)
    (hlt : attempts_used s < s.max_attempts)
    (hok : submit_guess s g now = SubmitOutcome.ok s' an fb b) :
    an = attempts_used s + 1 ∧
    (b = true → session_status s' = SessionStatus.WON) ∧
    (b = false → s.max_attempts ≤ an → session_status s' = SessionStatus.LOST) ∧
    (b = false → an < s.max_attempts → session_status s' = SessionStatus.IN_PROGRESS) ∧
    (s'.is_completed = true →
      s'.ended_at = some now ∧ s'.is_won = b ∧
      (s.mode = Mode.timed → s.total_time_secs = none →
        s'.total_time_secs = some (now - s.started_at))) := by
  obtain ⟨-, han, r, hb, -, hcases⟩ := submit_guess_ok_cases s g now s' an fb b hok
  subst han
  rcases hcases with ⟨hcor, hs⟩ | ⟨hcor, hfull, hs⟩ | ⟨hcor, hroom, hs⟩
  · subst hs
    rw [hcor] at hb
    refine ⟨rfl, ?_, ?_, ?_, ?_⟩
    · intro _
      simp [session_status, mark_completed]
    · intro hb0 _
      rw [hb0] at hb
      exact absurd hb (by simp)
    · intro hb0 _
      rw [hb0] at hb
      exact absurd hb (by simp)
    · intro _
      refine ⟨rfl, by simp [mark_completed, hb], ?_⟩
      intro hm ht
      simp [mark_completed, set_total_time, append_guess, hm, ht]
  · subst hs
    rw [hcor] at hb
    refine ⟨rfl, ?_, ?_, ?_, ?_⟩
    · intro hb1
      rw [hb1] at hb
      exact absurd hb (by simp)
    · intro _ _
      simp [session_status, mark_completed]
    · intro _ hroom
      omega
    · intro _
      refine ⟨rfl, by simp [mark_completed, hb], ?_⟩
      intro hm ht
      simp [mark_completed, set_total_time, append_guess, hm, ht]
  · subst hs
    rw [hcor] at hb
    refine ⟨rfl, ?_, ?_, ?_, ?_⟩
    · intro hb1
      rw [hb1] at hb
      exact absurd hb (by simp)
    · intro _ hfull
      omega
    · intro _ _
      simp [session_status, append_guess, hns]
    · intro hcomp
      rw [show (append_guess s g r).is_completed = s.is_completed from rfl, hns] at hcomp
      exact absurd hcomp (by simp)

/-- C2 witness: a fresh classic session on target "apple" receiving the
correct guess "apple" at time 5 transitions to WON. -/
theorem submit_guess_transition_witness :
    session_status
      (mark_completed
        (set_total_time
          (append_guess
            { target_word := { text := "apple".toList, is_active := true }
              max_attempts := 6, is_completed := false, is_won := false
              started_at := 0, ended_at := none, mode := Mode.classic
              puzzle_type := "classic".toList, hints_used := 0, difficulty := 1
              time_limit_secs := none, total_time_secs := none, guesses := [] }
            "apple".toList
            { feedback := [Feedback.correct, Feedback.correct, Feedback.correct,
                           Feedback.correct, Feedback.correct],
              is_correct := true, engine := "classic".toList }) 5) true 5) =
      SessionStatus.WON :=
  (submit_guess_transition
    { target_word := { text := "apple".toList, is_active := true }
      max_attempts := 6, is_completed := false, is_won := false
      started_at := 0, ended_at := none, mode := Mode.classic
      puzzle_type := "classic".toList, hints_used := 0, difficulty := 1
      time_limit_secs := none, total_time_secs := none, guesses := [] }
    "apple".toList 5
    (mark_completed
      (set_total_time
        (append_guess
          { target_word := { text := "apple".toList, is_active := true }
            max_attempts := 6, is_completed := false, is_won := false
            started_at := 0, ended_at := none, mode := Mode.classic
            puzzle_type := "classic".toList, hints_used := 0, difficulty := 1
            time_limit_secs := none, total_time_secs := none, guesses := [] }
          "apple".toList
          { feedback := [Feedback.correct, Feedback.correct, Feedback.correct,
                         Feedback.correct, Feedback.correct],
            is_correct := true, engine := "classic".toList }) 5) true 5)
    1
    [Feedback.correct, Feedback.correct, Feedback.correct, Feedback.correct, Feedback.correct]
    true rfl (by decide) rfl).2.1 rfl

lemma submit_guess_conflict_inv (s : GameSession) (g : List Char) (now : Nat)
    (s' : GameSession) (h : submit_guess s g now = SubmitOutcome.conflict s') :
    s' = (if s.is_completed then s else mark_completed s false now) := by
  unfold submit_guess at h
  by_cases hle : attempts_used s ≥ s.max_attempts
  · rw [if_pos hle] at h
    simp only [SubmitOutcome.conflict.injEq] at h
    exact h.symm
  · rw [if_neg hle] at h
    split at h
    · exact absurd h (by simp)
    · split at h
      · exact absurd h (by simp)
      · split at h
        · exact absurd h (by simp)
        · split at h
          · exact absurd h (by simp)
          · exact absurd h (by simp)

lemma reveal_position_ok_inv (s : GameSession) (idx : Nat) (s' : GameSession)
    (p : HintPayload) (h : reveal_position s idx = Except.ok (s', p)) :
    s' = increment_hints s := by
  unfold reveal_position at h
  split at h
  · exact absurd h (by simp)
  · split at h
    · simp only [Except.ok.injEq, Prod.mk.injEq] at h
      exact h.1.symm
    · exact absurd h (by simp)

lemma reveal_first_letter_ok_inv (s : GameSession) (s' : GameSession)
    (p : HintPayload) (h : reveal_first_letter s = Except.ok (s', p)) :
    s' = increment_hints s := by
  unfold reveal_first_letter at h
  split at h
  · exact absurd h (by simp)
  · split at h
    · simp only [Except.ok.injEq, Prod.mk.injEq] at h
      exact h.1.symm
    · exact absurd h (by simp)

lemma set_total_time_fields (x : GameSession) (now : Nat) :
    (set_total_time x now).guesses = x.guesses ∧
    (set_total_time x now).hints_used = x.hints_used ∧
    (set_total_time x now).max_attempts = x.max_attempts := by
  unfold set_total_time
  split <;> exact ⟨rfl, rfl, rfl⟩

lemma increment_hints_invariant (s : GameSession) (h : SessionInvariant s) :
    SessionInvariant (increment_hints s) := by
  obtain ⟨h1, h2, h3, h4⟩ := h
  exact ⟨h1, h2, Nat.min_le_right _ _, h4⟩

/-- C9: every session reachable through the public operations (start a game,
submit a guess, request a hint) satisfies the data-model invariant: winning
implies completion, `ended_at` is set exactly when completed, `hints_used`
stays within the cap of 2, and recorded guesses never exceed
`max_attempts`. -/
theorem reachable_session_invariant (s : GameSession) (hr : Reachable s) :
    SessionInvariant s := by
  induction hr with
  | start w ma mode pt diff tl t =>
    exact ⟨by simp [init_session], by simp [init_session], by simp [init_session,
      MAX_HINTS_PER_SESSION], by simp [init_session]⟩
  | guessConflict s g now s' _ hnc hconf ih =>
    have hs' := submit_guess_conflict_inv s g now s' hconf
    rw [hnc] at hs'
    simp only [Bool.false_eq_true, if_false, ite_false] at hs'
    subst hs'
    obtain ⟨-, -, ih3, ih4⟩ := ih
    exact ⟨fun h => by simp [mark_completed] at h, by simp [mark_completed], ih3, ih4⟩
  | guessOk s g now s' an fb b _ hnc hok ih =>
    obtain ⟨hlt, -, r, -, -, hcases⟩ := submit_guess_ok_cases s g now s' an fb b hok
    obtain ⟨ih1, ih2, ih3, ih4⟩ := ih
    have hfields := set_total_time_fields (append_guess s g r) now
    have hlen : (append_guess s g r).guesses.length = s.guesses.length + 1 := by
      simp [append_guess]
    have hattempts : attempts_used s = s.guesses.length := rfl
    rw [hattempts] at hlt
    rcases hcases with ⟨-, hs⟩ | ⟨-, -, hs⟩ | ⟨-, hroom, hs⟩ <;> subst hs
    · refine ⟨fun _ => rfl, by simp [mark_completed], ?_, ?_⟩
      · show (set_total_time (append_guess s g r) now).hints_used ≤ MAX_HINTS_PER_SESSION
        rw [hfields.2.1]
        exact ih3
      · show (set_total_time (append_guess s g r) now).guesses.length ≤
          (set_total_time (append_guess s g r) now).max_attempts
        rw [hfields.1, hfields.2.2, hlen]
        show s.guesses.length + 1 ≤ s.max_attempts
        omega
    · refine ⟨fun _ => rfl, by simp [mark_completed], ?_, ?_⟩
      · show (set_total_time (append_guess s g r) now).hints_used ≤ MAX_HINTS_PER_SESSION
        rw [hfields.2.1]
        exact ih3
      · show (set_total_time (append_guess s g r) now).guesses.length ≤
          (set_total_time (append_guess s g r) now).max_attempts
        rw [hfields.1, hfields.2.2, hlen]
        show s.guesses.length + 1 ≤ s.max_attempts
        omega
    · refine ⟨ih1, ih2, ih3, ?_⟩
      show (append_guess s g r).guesses.length ≤ (append_guess s g r).max_attempts
      rw [hlen]
      show s.guesses.length + 1 ≤ s.max_attempts
      omega
  | hintPos s idx s' p _ hnc hok ih =>
    have hs' := reveal_position_ok_inv s idx s' p hok
    subst hs'
    exact increment_hints_invariant s ih
  | hintFirst s s' p _ hnc hok ih =>
    have hs' := reveal_first_letter_ok_inv s s' p hok
    subst hs'
    exact increment_hints_invariant s ih

/-- C9 witness: the invariant holds for a freshly started session, which is
reachable by the start operation. -/
theorem reachable_session_invariant_witness :
    SessionInvariant
      (init_session { text := "apple".toList, is_active := true } 6 Mode.classic
        "classic".toList 1 none 0) :=
  reachable_session_invariant _
    (Reachable.start { text := "apple".toList, is_active := true } 6 Mode.classic
      "classic".toList 1 none 0)

end WordGame
